import Mathlib

/-!
Verification development for the multi-scrobbler source-polling engine.

The program is shallowly embedded:

* instants (`dayjs` values) are modelled as unix seconds (`Int`) because every
  comparison the code makes goes through `.unix()`;
* a thrown JS exception is modelled as `Except.error ()`;
* logger calls are modelled as data (flags / lists of messages) carried in the
  result of each operation.

Sources embedded here:

* `AbstractSource` (`startPolling`, `recentlyPlayedTrackIsValid`) from the
  untitled JS source file;
* `playObjDataMatch` from the untitled utils file;
* `YTMusicSource` (`getRecentlyPlayed`, `recentlyPlayedTrackIsValid`,
  the playDate synthesis) from `src/backend/sources/YTMusicSource.ts`.

The reconciler predicates (`playsAreSortConsistent`, `playsAreBumpedOnly`,
`playsAreAddedOnly`) and the diff helpers live in
`utils/PlayComparisonUtils.ts`, which is not part of the given sources; they
are modelled from the specification (each such definition is marked
`Modelled from the spec:`).
-/

/-- Play record `data` sub-record (spec §3; `PlayData` in `core/Atomic.ts`).
`playDate` is an optional instant in unix seconds. -/
structure PlayData where
  artists : List String := []
  albumArtists : List String := []
  album : Option String := none
  track : String := ""
  duration : Option Int := none
  playDate : Option Int := none
deriving DecidableEq, Repr, Inhabited

/-- Play record `meta` sub-record (spec §3; `PlayMeta` in `core/Atomic.ts`).
`sourceId` is the upstream-scoped identifier read by `playObjDataMatch`
(the older utils file); `trackId` is the field set by
`YTMusicSource.formatPlayObj`. -/
structure PlayMeta where
  source : Option String := none
  sourceId : Option String := none
  trackId : Option String := none
  newFromSource : Bool := false
  nowPlaying : Bool := false
  comment : Option String := none
deriving DecidableEq, Repr, Inhabited

/-- A play record: `data` plus `meta` (spec §3, `PlayObject`). -/
structure Play where
  data : PlayData
  meta : PlayMeta
deriving DecidableEq, Repr, Inhabited

/-! ## AbstractSource: default validity predicate

From the untitled JS source:
```
recentlyPlayedTrackIsValid = (playObj) => {
    return true;
}
```
-/

/-- `AbstractSource.recentlyPlayedTrackIsValid`: the default validity
predicate returns `true` for every play object. -/
def recentlyPlayedTrackIsValid (_playObj : Play) : Bool := true

/-- `YTMusicSource.recentlyPlayedTrackIsValid` (YTMusicSource.ts line 213):
`(playObj: PlayObject) => playObj.meta.newFromSource`. -/
def ytmusicRecentlyPlayedTrackIsValid (playObj : Play) : Bool :=
  playObj.meta.newFromSource

/-! ## AbstractSource: the timestamp newness-detection reduce

From `startPolling` (lines 67-91).  The accumulator of the JS `reduce`
carries `plays` and `lastTrackPlayedAt`; the booleans `newTracksFound` and
`closeToInterval` are outer mutable variables updated inside the reduce, so
the embedding carries all four in one accumulator.  Crucially, the
comparison `playDate.unix() > lastTrackPlayedAt.unix()` reads the *outer*
`lastTrackPlayedAt` variable, which is constant for the whole reduce (it is
only reassigned after the reduce finishes); the embedding therefore takes
that start-of-cycle value `last0` as a fixed parameter.  A valid play with
no `playDate` makes `playDate.unix()` throw, modelled as `Except.error`. -/
structure CycleAcc where
  plays : List Play
  lastTrackPlayedAt : Int
  newTracksFound : Bool
  closeToInterval : Bool
deriving DecidableEq, Repr, Inhabited

/-- Initial accumulator of the reduce: `{plays: [], lastTrackPlayedAt}` with
the outer flags `newTracksFound = false`, `closeToInterval = false`. -/
def initAcc (last0 : Int) : CycleAcc :=
  { plays := [], lastTrackPlayedAt := last0, newTracksFound := false,
    closeToInterval := false }

/-- Mark a play as newly observed:
`{...playObj, meta: {...playObj.meta, newFromSource: true}}`. -/
def flagNew (p : Play) : Play :=
  { p with meta := { p.meta with newFromSource := true } }

/-- The body of `playObjs.reduce(...)` in `startPolling`, iterated over the
fetched list.  `isValid` is `this.recentlyPlayedTrackIsValid`, `now` is the
`dayjs()` taken at the top of the cycle, `last0` the value of
`lastTrackPlayedAt` when the cycle started. -/
def detectNewness (isValid : Play → Bool) (now last0 : Int) :
    List Play → CycleAcc → Except Unit CycleAcc
  | [], acc => .ok acc
  | p :: rest, acc =>
    if isValid p then
      match p.data.playDate with
      | none => .error ()
      | some playDate =>
        if last0 < playDate then
          detectNewness isValid now last0 rest
            { plays := acc.plays ++ [flagNew p],
              lastTrackPlayedAt := playDate,
              newTracksFound := true,
              closeToInterval := acc.closeToInterval || decide (|now - playDate| < 5) }
        else
          detectNewness isValid now last0 rest { acc with plays := acc.plays ++ [p] }
    else
      detectNewness isValid now last0 rest acc

/-- Run the newness-detection step on a fetched list from the start-of-cycle
state, as `startPolling` does (initial accumulator `{plays: [], lastTrackPlayedAt}`). -/
def detectResult (isValid : Play → Bool) (now last0 : Int) (l : List Play) :
    Except Unit CycleAcc :=
  detectNewness isValid now last0 l (initAcc last0)

/-- `lastTrackPlayedAt` after the newness-detection step; if the step threw
(the cycle aborts) the variable keeps its start-of-cycle value. -/
def lastAfterDetect (isValid : Play → Bool) (now last0 : Int) (l : List Play) : Int :=
  match detectResult isValid now last0 l with
  | .ok acc => acc.lastTrackPlayedAt
  | .error _ => last0

/-- `newTracksFound` after the newness-detection step (`false` if the step threw). -/
def newFoundAfterDetect (isValid : Play → Bool) (now last0 : Int) (l : List Play) : Bool :=
  match detectResult isValid now last0 l with
  | .ok acc => acc.newTracksFound
  | .error _ => false

/-- Whether the newness-detection step completed without throwing. -/
def detectIsOk (isValid : Play → Bool) (now last0 : Int) (l : List Play) : Bool :=
  match detectResult isValid now last0 l with
  | .ok _ => true
  | .error _ => false

/-! ## AbstractSource: adaptive sleep (startPolling lines 122-135) -/

/-- The adaptive-sleep computation at the bottom of the polling cycle:
```
let sleepTime = interval;
if (checkCount > 5 && sleepTime < 600) {
    const lastPlayToNowSecs = Math.abs(now.unix() - lastTrackPlayedAt.unix());
    const backoffThreshold = Math.min((interval * 10), 600);
    if (lastPlayToNowSecs >= backoffThreshold) {
        sleepTime = Math.min(interval * 5, 300);
    }
}
```
`interval` already carries the config default (`const {interval = 30} = this.config`). -/
def computeSleepTime (interval : Int) (checkCount : Nat) (now lastTrackPlayedAt : Int) : Int :=
  let sleepTime := interval
  if 5 < checkCount ∧ sleepTime < 600 then
    let lastPlayToNowSecs := |now - lastTrackPlayedAt|
    let backoffThreshold := min (interval * 10) 600
    if backoffThreshold ≤ lastPlayToNowSecs then
      min (interval * 5) 300
    else
      sleepTime
  else
    sleepTime

/-! ## AbstractSource: one polling cycle and the loop -/

/-- Poller configuration visible to `startPolling`: `this.config.interval`
(`none` means absent, defaulted to 30 by `const {interval = 30} = this.config`). -/
structure PollConfig where
  interval : Option Int := none
deriving DecidableEq, Repr, Inhabited

instance {ε α : Type} [DecidableEq ε] [DecidableEq α] : DecidableEq (Except ε α) :=
  fun x y =>
    match x, y with
    | .ok a, .ok b =>
      if h : a = b then .isTrue (by rw [h]) else .isFalse (fun hc => h (Except.ok.inj hc))
    | .error a, .error b =>
      if h : a = b then .isTrue (by rw [h]) else .isFalse (fun hc => h (Except.error.inj hc))
    | .ok _, .error _ => .isFalse (fun hc => Except.noConfusion hc)
    | .error _, .ok _ => .isFalse (fun hc => Except.noConfusion hc)

/-- Per-cycle external inputs: the outcome of `getRecentlyPlayed` (which may
throw), the instant `dayjs()` sampled at the top of the cycle, and the outcome
of `allClients.scrobble` (the accepted subset, or a throw). -/
structure CycleInput where
  fetched : Except Unit (List Play)
  now : Int
  scrobbleResult : Except Unit (List Play)
deriving DecidableEq, Repr, Inhabited

/-- Poller state threaded through the loop: the `polling` field of the
source, the local variables `lastTrackPlayedAt` and `checkCount`, and the
`tracksDiscovered` counter. -/
structure PollerState where
  polling : Bool
  lastTrackPlayedAt : Int
  checkCount : Nat
  tracksDiscovered : Int
deriving DecidableEq, Repr, Inhabited

/-- Observable effects of one cycle: whether the 10-second close-to-interval
delay ran (before the dispatcher call), the list handed to
`allClients.scrobble` and its `forceRefresh` option, and the seconds slept at
the end of the cycle. -/
structure CycleRecord where
  delayedTenSeconds : Bool
  dispatchedPlays : List Play
  forceRefresh : Bool
  sleptFor : Int
deriving DecidableEq, Repr, Inhabited

/-- One iteration of the `while (true)` loop of `startPolling` (lines 59-139),
given the cycle's external inputs.  `Except.error` is an exception escaping
the cycle (from the fetch, from `playDate.unix()` on a date-less valid play,
or from the dispatcher). -/
def runCycle (cfg : PollConfig) (isValid : Play → Bool) (st : PollerState)
    (input : CycleInput) : Except Unit (PollerState × CycleRecord) :=
  match input.fetched with
  | .error e => .error e
  | .ok playObjs0 =>
    let checkCount1 := st.checkCount + 1
    let now := input.now
    match detectNewness isValid now st.lastTrackPlayedAt playObjs0
        (initAcc st.lastTrackPlayedAt) with
    | .error e => .error e
    | .ok acc =>
      let playObjs := acc.plays
      let lastTrackPlayedAt := acc.lastTrackPlayedAt
      let checkCount2 := if acc.newTracksFound = false then checkCount1 else 0
      match input.scrobbleResult with
      | .error e => .error e
      | .ok scrobbleResult =>
        let checkCount3 := if 0 < scrobbleResult.length then 0 else checkCount2
        let tracksDiscovered :=
          if 0 < scrobbleResult.length then st.tracksDiscovered + scrobbleResult.length
          else st.tracksDiscovered
        let interval := cfg.interval.getD 30
        let sleepTime := computeSleepTime interval checkCount3 now lastTrackPlayedAt
        .ok ({ polling := st.polling, lastTrackPlayedAt := lastTrackPlayedAt,
               checkCount := checkCount3, tracksDiscovered := tracksDiscovered },
             { delayedTenSeconds := acc.closeToInterval,
               dispatchedPlays := playObjs,
               forceRefresh := acc.closeToInterval,
               sleptFor := sleepTime })

/-- Result of a whole polling run: final state, per-cycle records, and
whether the surrounding `catch` block ran (`logger.error` twice and
`this.polling = false`).  The run itself always returns normally: the catch
swallows the exception, which is therefore never re-raised to the caller. -/
structure RunResult where
  state : PollerState
  records : List CycleRecord
  errorLogged : Bool
deriving DecidableEq, Repr, Inhabited

/-- The `try { while (true) {...} } catch` of `startPolling`, driven by a
list of per-cycle inputs (the run ends when the supplied inputs run out).
The loop breaks at the top when `polling` is false; an exception from a cycle
ends the loop, is logged, clears `polling`, and is not re-raised. -/
def runPolling (cfg : PollConfig) (isValid : Play → Bool) :
    PollerState → List CycleInput → RunResult
  | st, [] => { state := st, records := [], errorLogged := false }
  | st, input :: rest =>
    if st.polling = false then
      { state := st, records := [], errorLogged := false }
    else
      match runCycle cfg isValid st input with
      | .error _ =>
        { state := { st with polling := false }, records := [], errorLogged := true }
      | .ok (st', rec) =>
        let r := runPolling cfg isValid st' rest
        { state := r.state, records := rec :: r.records, errorLogged := r.errorLogged }

/-- `startPolling` entry (lines 45-53): the re-entry guard, then
`lastTrackPlayedAt = dayjs()` (process/loop start `now0`), `checkCount = 0`,
`this.polling = true`, then the loop. -/
def startPolling (cfg : PollConfig) (isValid : Play → Bool)
    (polling0 : Bool) (tracksDiscovered0 : Int) (now0 : Int)
    (inputs : List CycleInput) : RunResult :=
  if polling0 = true then
    { state := { polling := polling0, lastTrackPlayedAt := now0, checkCount := 0,
                 tracksDiscovered := tracksDiscovered0 },
      records := [], errorLogged := false }
  else
    runPolling cfg isValid
      { polling := true, lastTrackPlayedAt := now0, checkCount := 0,
        tracksDiscovered := tracksDiscovered0 } inputs

/-! ## utils: playObjDataMatch

From the untitled utils file (lines 215-262).  The JS reads `meta.sourceId`
for the upstream-scoped identifier.  The artists condition reproduces the
source's operator precedence exactly:
`if (!aArtists.every(x => bArtists.includes(x)) && bArtists.every(x => aArtists.includes(x))) return false`
(the negation applies only to the first `every`). -/

/-- `playObjDataMatch(a, b)` from the untitled utils file. -/
def playObjDataMatch (a b : Play) : Bool :=
  if a.meta.source = b.meta.source ∧ a.meta.sourceId.isSome ∧ b.meta.sourceId.isSome
      ∧ a.meta.sourceId ≠ b.meta.sourceId then
    false
  else if a.data.track ≠ b.data.track then
    false
  else if a.data.album ≠ b.data.album then
    false
  else if a.data.artists.length ≠ b.data.artists.length then
    false
  else if ¬ (∀ x ∈ a.data.artists, x ∈ b.data.artists)
      ∧ (∀ x ∈ b.data.artists, x ∈ a.data.artists) then
    false
  else
    true

/-! ## YTMusicSource: recent-window reconciliation

`YTMusicSource.getRecentlyPlayed` (YTMusicSource.ts lines 261-327) calls the
reconciler predicates from `utils/PlayComparisonUtils.ts`, which is not among
the given sources; those predicates are modelled from the specification
(§4.2) below. -/

/-- Modelled from the spec: the stable key identifying plays inside the
recent window (spec §4.2: plays are "identified by stable key
(trackId or track+artists+album)"). -/
def playKey (p : Play) : String :=
  match p.meta.trackId with
  | some id => "id:" ++ id
  | none =>
    "t:" ++ p.data.track ++ "|" ++ String.intercalate "," p.data.artists
      ++ "|" ++ p.data.album.getD ""

/-- Key sequence of a window, newest first. -/
def keyList (l : List Play) : List String := l.map playKey

/-- Modelled from the spec: `playsAreSortConsistent` from
`utils/PlayComparisonUtils.ts` (not among the given sources).  Spec §4.2
rule 1: "If `current` is a prefix-wise reordering such that removing some
head items of `current` yields a subsequence of `previous` with identical
relative order, no new plays; return ∅."  Disambiguated so that the spec's
four rules and its scenarios 4-6 stay mutually consistent: the removed head
items must already occur in `previous` (otherwise rule 3, Added-only, could
never fire because its instances would all fall under rule 1), and the
remaining items must match `previous` key for key. -/
def playsAreSortConsistent (previous current : List Play) : Bool :=
  (List.range (current.length + 1)).any fun k =>
    decide (keyList (current.drop k) = keyList previous)
      && (current.take k).all fun p => (keyList previous).contains (playKey p)

/-- Modelled from the spec: `playsAreBumpedOnly` from
`utils/PlayComparisonUtils.ts` (not among the given sources).  Spec §4.2
rule 2: "If `current` differs from `previous` solely by one or more items
moving toward the newest end (a repeat play of a previously-seen track
promotes that track to the top), return those bumped items as new."
Modelled as: some nonempty head block of `current` consists of
previously-seen items, and the rest of `current` is `previous` with exactly
those items erased; the bumped items are returned in `current` (newest
first) order. -/
def playsAreBumpedOnly (previous current : List Play) : Bool × List Play :=
  match ((List.range current.length).map (· + 1)).find? (fun m =>
      ((current.take m).all fun p => (keyList previous).contains (playKey p))
        && decide (keyList (current.drop m) =
          keyList (previous.filter
            fun q => !((keyList (current.take m)).contains (playKey q))))) with
  | some m => (true, current.take m)
  | none => (false, [])

/-- Modelled from the spec: `playsAreAddedOnly` from
`utils/PlayComparisonUtils.ts` (not among the given sources).  Spec §4.2
rule 3: "If `current` equals `previous` with zero or more strictly new items
prepended, return those prepended items as new."  The prepended prefix is
returned in `current` (newest-first) order; the caller
(`YTMusicSource.getRecentlyPlayed`) reverses it, which per rule 3 yields the
oldest-first emission order. -/
def playsAreAddedOnly (previous current : List Play) : Bool × List Play :=
  let n := current.length - previous.length
  if previous.length ≤ current.length
      ∧ keyList (current.drop n) = keyList previous
      ∧ ∀ p ∈ current.take n, ¬ playKey p ∈ keyList previous then
    (true, current.take n)
  else
    (false, [])

/-- Modelled from the spec: `getPlaysDiff` / `humanReadableDiff` from
`utils/PlayComparisonUtils.ts` (not among the given sources).  Spec §4.2
"Diff generation": a structural list-diff by stable key rendered as a short
human-readable summary; it is informational and never alters the
classification.  Modelled as the added and removed key lists. -/
def humanReadableDiff (previous current : List Play) : String :=
  let added := (keyList current).filter fun k => !((keyList previous).contains k)
  let removed := (keyList previous).filter fun k => !((keyList current).contains k)
  "added: [" ++ String.intercalate ", " added ++ "] removed: ["
    ++ String.intercalate ", " removed ++ "]"

/-- The warning text of YTMusicSource.ts line 294. -/
def inconsistentWarnMsg : String :=
  "YTM History returned temporally inconsistent order, resetting watched history to new list."

/-- The diff message of YTMusicSource.ts lines 299-302. -/
def diffLogMsg (previous current : List Play) : String :=
  "Changes from last seen list:\n    " ++ humanReadableDiff previous current

/-- `dayjs().startOf('minute')` on a unix-seconds instant: truncation to the
containing minute. -/
def startOfMinute (t : Int) : Int := t - t % 60

/-- The YTMusic poller state touched by `getRecentlyPlayed`: the stored
recent window `this.recentlyPlayed` and the inherited `this.polling` flag. -/
structure YtmState where
  recentlyPlayed : List Play
  polling : Bool
deriving DecidableEq, Repr, Inhabited

/-- Result of one `YTMusicSource.getRecentlyPlayed` call: the returned
`newPlays`, the updated source state, and the emitted `logger.warn` /
`logger.debug` messages. -/
structure YtmResult where
  newPlays : List Play
  state : YtmState
  warns : List String
  debugs : List String
deriving DecidableEq, Repr, Inhabited

/-- The playDate synthesis of YTMusicSource.ts lines 313-322 applied to the
play at zero-based index `i` of the emitted sequence:
`playDate = dayjs().startOf('minute').add(index + 1, 's')` and
`newFromSource = true`. -/
def synthNewPlay (minuteNow : Int) (i : Nat) (x : Play) : Play :=
  { data := { x.data with playDate := some (minuteNow + (i + 1)) },
    meta := { x.meta with newFromSource := true } }

/-- `YTMusicSource.getRecentlyPlayed` (YTMusicSource.ts lines 261-327).
`listPlays` is the formatted list of history items from the API response
(the code keeps `plays = listPlays.slice(0, 20)`); `now` is the instant of
the `dayjs()` call in the synthesis step; `logDiff` is
`this.config.options?.logDiff === true`. -/
def ytmGetRecentlyPlayed (st : YtmState) (listPlays : List Play) (now : Int)
    (logDiff : Bool) : YtmResult :=
  let plays := listPlays.take 20
  if st.polling = false then
    { newPlays := plays, state := { st with recentlyPlayed := plays },
      warns := [], debugs := [] }
  else if playsAreSortConsistent st.recentlyPlayed plays then
    { newPlays := [], state := st, warns := [], debugs := [] }
  else
    let bumpResults := playsAreBumpedOnly st.recentlyPlayed plays
    let addResults := playsAreAddedOnly st.recentlyPlayed plays
    let newPlays0 : List Play :=
      if bumpResults.1 then bumpResults.2
      else if addResults.1 then addResults.2.reverse
      else []
    let warnMsg : Option String :=
      if bumpResults.1 then none
      else if addResults.1 then none
      else some inconsistentWarnMsg
    let warns : List String :=
      match warnMsg with
      | some w => [w, diffLogMsg st.recentlyPlayed plays]
      | none => []
    let debugs : List String :=
      if warnMsg.isNone ∧ newPlays0 ≠ [] ∧ logDiff = true then
        [diffLogMsg st.recentlyPlayed plays]
      else []
    let newPlays := newPlays0.mapIdx fun i x => synthNewPlay (startOfMinute now) i x
    { newPlays := newPlays, state := { st with recentlyPlayed := plays },
      warns := warns, debugs := debugs }

/-! ## Derived observation functions and concrete sample inputs -/

/-- The playDates the newness-detection reduce actually dereferences: the
`playDate` of each fetched play that passes `isValid`, in list order. -/
def validDates (isValid : Play → Bool) (l : List Play) : List Int :=
  l.filterMap fun p => if isValid p then p.data.playDate else none

/-- The value `lastTrackPlayedAt` holds after the reduce, as a function of
the valid playDates: every date strictly above the start-of-cycle value
`last0` overwrites the running value, so the final value is the last such
date (or the initial accumulator value when none qualifies). -/
def lastQual (last0 : Int) (a : Int) : List Int → Int
  | [] => a
  | d :: ds => lastQual last0 (if last0 < d then d else a) ds

/-- The claim's same-play relation for `playObjDataMatch`, stated as the
claim words it: the `(meta.source, upstream id)` pairs match (an identifier
being present), or the `(track, album, artists-set)` triples match
exactly. -/
def claimedSamePlay (a b : Play) : Prop :=
  (a.meta.source = b.meta.source ∧ a.meta.sourceId = b.meta.sourceId
      ∧ a.meta.sourceId.isSome = true)
    ∨ (a.data.track = b.data.track ∧ a.data.album = b.data.album
      ∧ ∀ x, x ∈ a.data.artists ↔ x ∈ b.data.artists)

/-- Sample play "A". -/
def pA : Play := { data := { track := "A" }, meta := {} }

/-- Sample play "B". -/
def pB : Play := { data := { track := "B" }, meta := {} }

/-- Sample play "C". -/
def pC : Play := { data := { track := "C" }, meta := {} }

/-- Sample play "D". -/
def pD : Play := { data := { track := "D" }, meta := {} }

/-- Two plays with the same `(source, sourceId)` pair but different titles. -/
def idMatchA : Play :=
  { data := { track := "A" }, meta := { source := some "S", sourceId := some "1" } }

/-- See `idMatchA`. -/
def idMatchB : Play :=
  { data := { track := "B" }, meta := { source := some "S", sourceId := some "1" } }

/-- A play with no `playDate` at all (and not now-playing). -/
def noDatePlay : Play := { data := {}, meta := {} }

/-- Seven quiet cycles: the fetch returns an empty list every time and the
dispatcher accepts nothing; the clock reads 3600 (one hour after the
process-start instant 0 used below). -/
def quietInputs : List CycleInput :=
  List.replicate 7 { fetched := .ok [], now := 3600, scrobbleResult := .ok [] }

/-- A polling run over `quietInputs` starting from a stopped source at
instant 0 with default configuration (`interval` absent, hence 30). -/
def quietRun : RunResult :=
  startPolling {} recentlyPlayedTrackIsValid false 0 0 quietInputs

/-- Start-of-cycle state for the concrete close-to-interval cycle. -/
def c5st : PollerState :=
  { polling := true, lastTrackPlayedAt := 0, checkCount := 0, tracksDiscovered := 0 }

/-- A play finishing at instant 100, fetched at instant 102. -/
def c5play : Play := { data := { track := "X", playDate := some 100 }, meta := {} }

/-- The concrete close-to-interval cycle input. -/
def c5input : CycleInput :=
  { fetched := .ok [c5play], now := 102, scrobbleResult := .ok [] }

/-- Outcome of the concrete close-to-interval cycle. -/
def c5result : PollerState × CycleRecord :=
  match runCycle {} recentlyPlayedTrackIsValid c5st c5input with
  | .ok pr => pr
  | .error _ => default

/-- A cycle input whose fetch throws. -/
def c8input : CycleInput :=
  { fetched := .error (), now := 0, scrobbleResult := .ok [] }

/-- A freshly started poller state. -/
def c8st : PollerState :=
  { polling := true, lastTrackPlayedAt := 0, checkCount := 0, tracksDiscovered := 0 }

/-- A play with a timestamp, for the idempotent-cycle witness. -/
def c9play : Play := { data := { track := "Y", playDate := some 100 }, meta := {} }

/-! # Supporting lemmas -/

theorem validDates_cons_invalid {isValid : Play → Bool} {p : Play} (l : List Play)
    (h : isValid p = false) : validDates isValid (p :: l) = validDates isValid l := by
  simp [validDates, List.filterMap_cons, h]

theorem validDates_cons_valid {isValid : Play → Bool} {p : Play} {d : Int} (l : List Play)
    (hv : isValid p = true) (hd : p.data.playDate = some d) :
    validDates isValid (p :: l) = d :: validDates isValid l := by
  simp [validDates, List.filterMap_cons, hv, hd]

theorem detectNewness_ok_char (isValid : Play → Bool) (now last0 : Int) :
    ∀ (l : List Play) (acc acc' : CycleAcc),
    detectNewness isValid now last0 l acc = .ok acc' →
    acc'.lastTrackPlayedAt = lastQual last0 acc.lastTrackPlayedAt (validDates isValid l)
    ∧ acc'.newTracksFound
        = (acc.newTracksFound || (validDates isValid l).any fun d => decide (last0 < d))
    ∧ acc'.closeToInterval
        = (acc.closeToInterval || (validDates isValid l).any fun d =>
            decide (last0 < d) && decide (|now - d| < 5)) := by
  intro l
  induction l with
  | nil =>
    intro acc acc' h
    simp only [detectNewness] at h
    injection h with h
    subst h
    simp [validDates, lastQual]
  | cons p rest ih =>
    intro acc acc' h
    simp only [detectNewness] at h
    by_cases hv : isValid p = true
    · rw [if_pos hv] at h
      split at h
      next => exact absurd h (by simp)
      next d hd =>
        rw [validDates_cons_valid rest hv hd]
        by_cases hlt : last0 < d
        · rw [if_pos hlt] at h
          have hc := ih _ _ h
          refine ⟨?_, ?_, ?_⟩
          · rw [hc.1]; simp [lastQual, hlt]
          · rw [hc.2.1]; simp [hlt]
          · rw [hc.2.2]; simp [hlt, Bool.or_assoc]
        · rw [if_neg hlt] at h
          have hc := ih _ _ h
          refine ⟨?_, ?_, ?_⟩
          · rw [hc.1]; simp [lastQual, hlt]
          · rw [hc.2.1]; simp [hlt]
          · rw [hc.2.2]; simp [hlt]
    · rw [if_neg hv] at h
      rw [validDates_cons_invalid rest (by simpa using hv)]
      exact ih _ _ h

theorem lastQual_eq_or (last0 : Int) :
    ∀ (ds : List Int) (a : Int),
    lastQual last0 a ds = a
      ∨ (last0 < lastQual last0 a ds ∧ lastQual last0 a ds ∈ ds) := by
  intro ds
  induction ds with
  | nil => intro a; exact Or.inl rfl
  | cons d ds ih =>
    intro a
    simp only [lastQual]
    rcases ih (if last0 < d then d else a) with h | h
    · rw [h]
      by_cases hlt : last0 < d
      · rw [if_pos hlt]
        exact Or.inr ⟨hlt, List.mem_cons_self d ds⟩
      · rw [if_neg hlt]
        exact Or.inl rfl
    · exact Or.inr ⟨h.1, List.mem_cons_of_mem _ h.2⟩

theorem lastQual_of_no_qual (last0 : Int) :
    ∀ (ds : List Int) (a : Int), (∀ d ∈ ds, ¬ last0 < d) → lastQual last0 a ds = a := by
  intro ds
  induction ds with
  | nil => intro a _; rfl
  | cons d ds ih =>
    intro a h
    simp only [lastQual]
    rw [if_neg (h d (List.mem_cons_self d ds))]
    exact ih a fun x hx => h x (List.mem_cons_of_mem _ hx)

theorem lastQual_sorted_bound (last0 : Int) :
    ∀ (ds : List Int) (a : Int), List.Pairwise (· ≤ ·) ds →
    (∀ x ∈ ds, x ≤ last0) ∨ (∀ x ∈ ds, x ≤ lastQual last0 a ds) := by
  intro ds
  induction ds with
  | nil => intro a _; exact Or.inl (by simp)
  | cons d ds ih =>
    intro a hp
    have hd : ∀ x ∈ ds, d ≤ x := (List.pairwise_cons.mp hp).1
    have hp' := (List.pairwise_cons.mp hp).2
    rcases ih (if last0 < d then d else a) hp' with hall | hall
    · by_cases hlt : last0 < d
      · right
        have hnoq : ∀ x ∈ ds, ¬ last0 < x := fun x hx => not_lt.mpr (hall x hx)
        simp only [lastQual]
        rw [lastQual_of_no_qual last0 ds _ hnoq, if_pos hlt]
        intro x hx
        rcases List.mem_cons.mp hx with rfl | hx'
        · exact le_refl x
        · exact le_trans (hall x hx') (le_of_lt hlt)
      · left
        intro x hx
        rcases List.mem_cons.mp hx with rfl | hx'
        · exact not_lt.mp hlt
        · exact hall x hx'
    · rcases ds with _ | ⟨d1, ds1⟩
      · by_cases hlt : last0 < d
        · right
          simp only [lastQual]
          rw [if_pos hlt]
          intro x hx
          have hx' : x = d := by simpa using hx
          subst hx'
          exact le_refl x
        · left
          intro x hx
          have hx' : x = d := by simpa using hx
          subst hx'
          exact not_lt.mp hlt
      · right
        intro x hx
        have hdle : d ≤ lastQual last0 (if last0 < d then d else a) (d1 :: ds1) :=
          le_trans (hd d1 (by simp)) (hall d1 (by simp))
        simp only [lastQual] at hall ⊢
        rcases List.mem_cons.mp hx with rfl | hx'
        · simpa only [lastQual] using hdle
        · exact hall x hx'

theorem lastAfterDetect_of_ok {isValid : Play → Bool} {now last0 : Int} {l : List Play}
    {acc : CycleAcc} (h : detectResult isValid now last0 l = .ok acc) :
    lastAfterDetect isValid now last0 l = acc.lastTrackPlayedAt := by
  unfold lastAfterDetect
  rw [h]

theorem lastAfterDetect_of_error {isValid : Play → Bool} {now last0 : Int} {l : List Play}
    {e : Unit} (h : detectResult isValid now last0 l = .error e) :
    lastAfterDetect isValid now last0 l = last0 := by
  unfold lastAfterDetect
  rw [h]

theorem newFoundAfterDetect_of_ok {isValid : Play → Bool} {now last0 : Int} {l : List Play}
    {acc : CycleAcc} (h : detectResult isValid now last0 l = .ok acc) :
    newFoundAfterDetect isValid now last0 l = acc.newTracksFound := by
  unfold newFoundAfterDetect
  rw [h]

theorem detectIsOk_of_ok {isValid : Play → Bool} {now last0 : Int} {l : List Play}
    {acc : CycleAcc} (h : detectResult isValid now last0 l = .ok acc) :
    detectIsOk isValid now last0 l = true := by
  unfold detectIsOk
  rw [h]

theorem detectResult_char {isValid : Play → Bool} {now last0 : Int} {l : List Play}
    {acc : CycleAcc} (h : detectResult isValid now last0 l = .ok acc) :
    acc.lastTrackPlayedAt = lastQual last0 last0 (validDates isValid l)
    ∧ acc.newTracksFound = (validDates isValid l).any (fun d => decide (last0 < d))
    ∧ acc.closeToInterval = (validDates isValid l).any
        (fun d => decide (last0 < d) && decide (|now - d| < 5)) := by
  unfold detectResult at h
  have hc := detectNewness_ok_char isValid now last0 l _ _ h
  refine ⟨hc.1, ?_, ?_⟩
  · rw [hc.2.1]; simp [initAcc]
  · rw [hc.2.2]; simp [initAcc]

/-- C3: for every polling cycle and every fetched list, the value of
`lastTrackPlayedAt` after the timestamp newness-detection step is at least
its value at the start of the cycle, and whenever it changed it was replaced
by the `playDate` of some valid fetched record that is strictly greater than
the start-of-cycle value; hence the variable never regresses within a
session. -/
theorem lastTrackPlayedAt_monotone (isValid : Play → Bool) (now last0 : Int) (l : List Play) :
    last0 ≤ lastAfterDetect isValid now last0 l
    ∧ (lastAfterDetect isValid now last0 l = last0
      ∨ (last0 < lastAfterDetect isValid now last0 l
        ∧ ∃ p ∈ l, isValid p = true
          ∧ p.data.playDate = some (lastAfterDetect isValid now last0 l))) := by
  cases h : detectResult isValid now last0 l with
  | error e =>
    rw [lastAfterDetect_of_error h]
    exact ⟨le_refl _, Or.inl rfl⟩
  | ok acc =>
    rw [lastAfterDetect_of_ok h]
    have hchar := (detectResult_char h).1
    rcases lastQual_eq_or last0 (validDates isValid l) last0 with hq | hq
    · rw [hchar, hq]
      exact ⟨le_refl _, Or.inl rfl⟩
    · rw [hchar]
      refine ⟨le_of_lt hq.1, Or.inr ⟨hq.1, ?_⟩⟩
      have hm := hq.2
      simp only [validDates, List.mem_filterMap] at hm
      obtain ⟨p, hp, hsome⟩ := hm
      by_cases hv : isValid p = true
      · rw [if_pos hv] at hsome
        exact ⟨p, hp, hv, hsome⟩
      · rw [if_neg hv] at hsome
        exact absurd hsome (by simp)

/-- C4: the sleep duration of a polling cycle equals the configured interval
(default 30 s) except that, when `checkCount > 5`, `interval < 600` and
`|now - lastTrackPlayedAt| ≥ min(interval*10, 600)` all hold, it is
`min(interval*5, 300)`; concretely, with `interval = 30` and seven quiet
cycles whose clock reads one hour after the start instant, the 7th cycle
sleeps 150 seconds. -/
theorem adaptive_sleep_rule :
    (∀ (interval : Int) (checkCount : Nat) (now lastTrackPlayedAt : Int),
      computeSleepTime interval checkCount now lastTrackPlayedAt
        = if 5 < checkCount ∧ interval < 600
              ∧ min (interval * 10) 600 ≤ |now - lastTrackPlayedAt|
          then min (interval * 5) 300 else interval)
    ∧ (quietRun.records.getD 6 default).sleptFor = 150 := by
  constructor
  · intro interval checkCount now lastTrackPlayedAt
    simp only [computeSleepTime]
    split_ifs <;> tauto
  · decide

theorem runCycle_detect_error (cfg : PollConfig) (isValid : Play → Bool)
    (st : PollerState) (input : CycleInput) (l : List Play) (e : Unit)
    (hf : input.fetched = .ok l)
    (hd : detectNewness isValid input.now st.lastTrackPlayedAt l
      (initAcc st.lastTrackPlayedAt) = .error e) :
    runCycle cfg isValid st input = .error e := by
  obtain ⟨fetched, now, scrobble⟩ := input
  dsimp only at hf hd ⊢
  subst hf
  dsimp only [runCycle]
  rw [hd]

theorem runCycle_scrobble_error (cfg : PollConfig) (isValid : Play → Bool)
    (st : PollerState) (input : CycleInput) (l : List Play) (acc : CycleAcc) (e : Unit)
    (hf : input.fetched = .ok l)
    (hd : detectNewness isValid input.now st.lastTrackPlayedAt l
      (initAcc st.lastTrackPlayedAt) = .ok acc)
    (hs : input.scrobbleResult = .error e) :
    runCycle cfg isValid st input = .error e := by
  obtain ⟨fetched, now, scrobble⟩ := input
  dsimp only at hf hd hs ⊢
  subst hf
  subst hs
  dsimp only [runCycle]
  rw [hd]

theorem runCycle_of_all_ok (cfg : PollConfig) (isValid : Play → Bool)
    (st : PollerState) (input : CycleInput) (l scr : List Play) (acc : CycleAcc)
    (hf : input.fetched = .ok l)
    (hd : detectNewness isValid input.now st.lastTrackPlayedAt l
      (initAcc st.lastTrackPlayedAt) = .ok acc)
    (hs : input.scrobbleResult = .ok scr) :
    runCycle cfg isValid st input = .ok
      ({ polling := st.polling,
         lastTrackPlayedAt := acc.lastTrackPlayedAt,
         checkCount := if 0 < scr.length then 0
           else if acc.newTracksFound = false then st.checkCount + 1 else 0,
         tracksDiscovered := if 0 < scr.length then st.tracksDiscovered + scr.length
           else st.tracksDiscovered },
       { delayedTenSeconds := acc.closeToInterval,
         dispatchedPlays := acc.plays,
         forceRefresh := acc.closeToInterval,
         sleptFor := computeSleepTime (cfg.interval.getD 30)
           (if 0 < scr.length then 0
             else if acc.newTracksFound = false then st.checkCount + 1 else 0)
           input.now acc.lastTrackPlayedAt }) := by
  obtain ⟨fetched, now, scrobble⟩ := input
  dsimp only at hf hd hs ⊢
  subst hf
  subst hs
  dsimp only [runCycle]
  rw [hd]

/-- C5: in a polling cycle, the 10-second pre-dispatch delay runs exactly
when some record newly flagged in that cycle has `|now - playDate| < 5`, and
the `forceRefresh` option passed to the dispatcher always equals that
close-to-interval flag. -/
theorem closeToInterval_delay_and_forceRefresh (cfg : PollConfig) (isValid : Play → Bool)
    (st : PollerState) (input : CycleInput) (l : List Play)
    (st' : PollerState) (rec : CycleRecord)
    (hfetch : input.fetched = .ok l)
    (hrun : runCycle cfg isValid st input = .ok (st', rec)) :
    (rec.delayedTenSeconds = true
      ↔ ∃ p ∈ l, isValid p = true ∧ ∃ d, p.data.playDate = some d
          ∧ st.lastTrackPlayedAt < d ∧ |input.now - d| < 5)
    ∧ rec.forceRefresh = rec.delayedTenSeconds := by
  cases hdet : detectNewness isValid input.now st.lastTrackPlayedAt l
      (initAcc st.lastTrackPlayedAt) with
  | error e =>
    rw [runCycle_detect_error cfg isValid st input l e hfetch hdet] at hrun
    exact absurd hrun (by simp)
  | ok acc =>
    cases hs : input.scrobbleResult with
    | error e =>
      rw [runCycle_scrobble_error cfg isValid st input l acc e hfetch hdet hs] at hrun
      exact absurd hrun (by simp)
    | ok scr =>
      rw [runCycle_of_all_ok cfg isValid st input l scr acc hfetch hdet hs] at hrun
      injection hrun with hpair
      injection hpair with h1 h2
      subst h2
      have hclose := (detectNewness_ok_char isValid input.now st.lastTrackPlayedAt
        l _ _ hdet).2.2
      simp only [initAcc, Bool.false_or] at hclose
      refine ⟨?_, rfl⟩
      show acc.closeToInterval = true ↔ _
      rw [hclose]
      constructor
      · intro hany
        obtain ⟨d, hd, hg⟩ := List.any_eq_true.mp hany
        simp only [Bool.and_eq_true, decide_eq_true_eq] at hg
        simp only [validDates, List.mem_filterMap] at hd
        obtain ⟨p, hp, hsome⟩ := hd
        by_cases hv : isValid p = true
        · rw [if_pos hv] at hsome
          exact ⟨p, hp, hv, d, hsome, hg.1, hg.2⟩
        · rw [if_neg hv] at hsome
          exact absurd hsome (by simp)
      · rintro ⟨p, hp, hv, d, hsome, hlt, hcl⟩
        apply List.any_eq_true.mpr
        refine ⟨d, ?_, ?_⟩
        · simp only [validDates, List.mem_filterMap]
          exact ⟨p, hp, by rw [if_pos hv]; exact hsome⟩
        · simp [hlt, hcl]

/-- Witness for C5: a play finishing at instant 100 fetched at instant 102
triggers the delay and `forceRefresh`. -/
theorem closeToInterval_witness :
    c5result.2.delayedTenSeconds = true
    ∧ c5result.2.forceRefresh = c5result.2.delayedTenSeconds := by
  have hrun : runCycle {} recentlyPlayedTrackIsValid c5st c5input
      = .ok (c5result.1, c5result.2) := by decide
  have h := closeToInterval_delay_and_forceRefresh {} recentlyPlayedTrackIsValid c5st c5input
    [c5play] c5result.1 c5result.2 (by decide) hrun
  exact ⟨h.1.mpr ⟨c5play, by decide, by decide, 100, by decide, by decide, by decide⟩, h.2⟩

theorem runCycle_fetch_error (cfg : PollConfig) (isValid : Play → Bool)
    (st : PollerState) (input : CycleInput) (e : Unit)
    (hf : input.fetched = .error e) :
    runCycle cfg isValid st input = .error e := by
  obtain ⟨fetched, now, scrobble⟩ := input
  dsimp only at hf ⊢
  subst hf
  dsimp only [runCycle]

theorem runCycle_ok_polling (cfg : PollConfig) (isValid : Play → Bool)
    (st : PollerState) (input : CycleInput) (st' : PollerState) (rec : CycleRecord)
    (h : runCycle cfg isValid st input = .ok (st', rec)) :
    st'.polling = st.polling := by
  cases hf : input.fetched with
  | error e =>
    rw [runCycle_fetch_error cfg isValid st input e hf] at h
    exact absurd h (by simp)
  | ok l =>
    cases hdet : detectNewness isValid input.now st.lastTrackPlayedAt l
        (initAcc st.lastTrackPlayedAt) with
    | error e =>
      rw [runCycle_detect_error cfg isValid st input l e hf hdet] at h
      exact absurd h (by simp)
    | ok acc =>
      cases hs : input.scrobbleResult with
      | error e =>
        rw [runCycle_scrobble_error cfg isValid st input l acc e hf hdet hs] at h
        exact absurd h (by simp)
      | ok scr =>
        rw [runCycle_of_all_ok cfg isValid st input l scr acc hf hdet hs] at h
        injection h with h
        injection h with h1 h2
        rw [← h1]

/-- C8: an exception thrown by the upstream fetch or by the dispatcher in a
polling cycle ends the loop (no further cycle runs), is logged by the `catch`
block, clears `polling`, and is not re-raised: the run still returns a
normal `RunResult` whose records are exactly those of the error-free prefix. -/
theorem polling_exception_caught (cfg : PollConfig) (isValid : Play → Bool) :
    ∀ (good : List CycleInput) (st : PollerState) (input : CycleInput)
      (rest : List CycleInput),
    st.polling = true →
    (runPolling cfg isValid st good).errorLogged = false →
    (runPolling cfg isValid st good).records.length = good.length →
    runCycle cfg isValid (runPolling cfg isValid st good).state input = .error () →
    (runPolling cfg isValid st (good ++ input :: rest)).errorLogged = true
    ∧ (runPolling cfg isValid st (good ++ input :: rest)).state.polling = false
    ∧ (runPolling cfg isValid st (good ++ input :: rest)).records
        = (runPolling cfg isValid st good).records := by
  intro good
  induction good with
  | nil =>
    intro st input rest hpol hel hlen herr
    have hpolF : ¬ st.polling = false := by rw [hpol]; simp
    have herr' : runCycle cfg isValid st input = .error () := herr
    simp only [List.nil_append, runPolling]
    rw [if_neg hpolF, herr']
    exact ⟨rfl, rfl, rfl⟩
  | cons g good' ih =>
    intro st input rest hpol hel hlen herr
    have hpolF : ¬ st.polling = false := by rw [hpol]; simp
    cases hc : runCycle cfg isValid st g with
    | error e =>
      exfalso
      have hbad : (runPolling cfg isValid st (g :: good')).errorLogged = true := by
        simp only [runPolling]
        rw [if_neg hpolF, hc]
      rw [hbad] at hel
      exact Bool.noConfusion hel
    | ok pr =>
      obtain ⟨st1, rec⟩ := pr
      have hpol1 : st1.polling = true := by
        rw [runCycle_ok_polling cfg isValid st g st1 rec hc, hpol]
      have hexp : runPolling cfg isValid st (g :: good')
          = { state := (runPolling cfg isValid st1 good').state,
              records := rec :: (runPolling cfg isValid st1 good').records,
              errorLogged := (runPolling cfg isValid st1 good').errorLogged } := by
        simp only [runPolling]
        rw [if_neg hpolF, hc]
      have hel' : (runPolling cfg isValid st1 good').errorLogged = false := by
        rw [hexp] at hel
        exact hel
      have hlen' : (runPolling cfg isValid st1 good').records.length = good'.length := by
        rw [hexp] at hlen
        simpa using hlen
      have herr' : runCycle cfg isValid (runPolling cfg isValid st1 good').state input
          = .error () := by
        rw [hexp] at herr
        exact herr
      have hmain := ih st1 input rest hpol1 hel' hlen' herr'
      have hexp2 : runPolling cfg isValid st ((g :: good') ++ input :: rest)
          = { state := (runPolling cfg isValid st1 (good' ++ input :: rest)).state,
              records := rec :: (runPolling cfg isValid st1 (good' ++ input :: rest)).records,
              errorLogged := (runPolling cfg isValid st1 (good' ++ input :: rest)).errorLogged } := by
        simp only [List.cons_append, runPolling]
        rw [if_neg hpolF, hc]
        rfl
      refine ⟨?_, ?_, ?_⟩
      · rw [hexp2]
        exact hmain.1
      · rw [hexp2]
        exact hmain.2.1
      · rw [hexp2, hexp]
        simp only [List.cons.injEq, true_and]
        exact hmain.2.2

/-- Witness for C8: a first cycle whose fetch throws ends the run with the
error logged, `polling` cleared and no cycle records. -/
theorem polling_exception_caught_witness :
    (runPolling {} recentlyPlayedTrackIsValid c8st [c8input]).errorLogged = true
    ∧ (runPolling {} recentlyPlayedTrackIsValid c8st [c8input]).state.polling = false
    ∧ (runPolling {} recentlyPlayedTrackIsValid c8st [c8input]).records
        = (runPolling {} recentlyPlayedTrackIsValid c8st []).records := by
  have h := polling_exception_caught {} recentlyPlayedTrackIsValid [] c8st c8input []
    (by decide) (by decide) (by decide) (by decide)
  exact h

theorem detectNewness_ok_of_dates (isValid : Play → Bool) (now last0 : Int) :
    ∀ (l : List Play) (acc : CycleAcc),
    (∀ p ∈ l, isValid p = true → (p.data.playDate).isSome = true) →
    ∃ acc', detectNewness isValid now last0 l acc = .ok acc' := by
  intro l
  induction l with
  | nil => intro acc _; exact ⟨acc, rfl⟩
  | cons p rest ih =>
    intro acc h
    simp only [detectNewness]
    by_cases hv : isValid p = true
    · rw [if_pos hv]
      split
      next hdd =>
        exact absurd (h p (List.mem_cons_self p rest) hv) (by simp [hdd])
      next d hdd =>
        by_cases hlt : last0 < d
        · rw [if_pos hlt]
          exact ih _ fun q hq hvq => h q (List.mem_cons_of_mem _ hq) hvq
        · rw [if_neg hlt]
          exact ih _ fun q hq hvq => h q (List.mem_cons_of_mem _ hq) hvq
    · rw [if_neg hv]
      exact ih _ fun q hq hvq => h q (List.mem_cons_of_mem _ hq) hvq

/-- C9: if the newness-detection step processes the same fetched list as the
previous cycle — the list being timestamped and sorted oldest-first as the
formatter contract guarantees — then the repeated cycle finds no new track
and leaves `lastTrackPlayedAt` unchanged. -/
theorem empty_cycle_idempotent (isValid : Play → Bool) (now1 now2 last0 : Int)
    (l : List Play)
    (hdates : ∀ p ∈ l, isValid p = true → (p.data.playDate).isSome = true)
    (hsorted : List.Pairwise (· ≤ ·) (validDates isValid l)) :
    detectIsOk isValid now2 (lastAfterDetect isValid now1 last0 l) l = true
    ∧ newFoundAfterDetect isValid now2 (lastAfterDetect isValid now1 last0 l) l = false
    ∧ lastAfterDetect isValid now2 (lastAfterDetect isValid now1 last0 l) l
        = lastAfterDetect isValid now1 last0 l := by
  obtain ⟨acc1, h1⟩ := detectNewness_ok_of_dates isValid now1 last0 l (initAcc last0) hdates
  have h1' : detectResult isValid now1 last0 l = .ok acc1 := h1
  have hl1 : lastAfterDetect isValid now1 last0 l = acc1.lastTrackPlayedAt :=
    lastAfterDetect_of_ok h1'
  have hchar1 := detectResult_char h1'
  have hle : ∀ d ∈ validDates isValid l, d ≤ lastAfterDetect isValid now1 last0 l := by
    rcases lastQual_sorted_bound last0 (validDates isValid l) last0 hsorted with hc | hc
    · intro d hd
      have hfix : lastQual last0 last0 (validDates isValid l) = last0 :=
        lastQual_of_no_qual last0 _ _ fun x hx => not_lt.mpr (hc x hx)
      rw [hl1, hchar1.1, hfix]
      exact hc d hd
    · intro d hd
      rw [hl1, hchar1.1]
      exact hc d hd
  obtain ⟨acc2, h2⟩ := detectNewness_ok_of_dates isValid now2
    (lastAfterDetect isValid now1 last0 l) l
    (initAcc (lastAfterDetect isValid now1 last0 l)) hdates
  have h2' : detectResult isValid now2 (lastAfterDetect isValid now1 last0 l) l
      = .ok acc2 := h2
  have hchar2 := detectResult_char h2'
  have hnoq : ∀ d ∈ validDates isValid l,
      ¬ lastAfterDetect isValid now1 last0 l < d :=
    fun d hd => not_lt.mpr (hle d hd)
  refine ⟨detectIsOk_of_ok h2', ?_, ?_⟩
  · rw [newFoundAfterDetect_of_ok h2', hchar2.2.1]
    apply List.any_eq_false.mpr
    intro d hd
    simpa using hnoq d hd
  · rw [lastAfterDetect_of_ok h2', hchar2.1]
    exact lastQual_of_no_qual _ _ _ hnoq

/-- Witness for C9: re-processing the one-play list `[c9play]` right after it
was first processed finds nothing new and keeps `lastTrackPlayedAt`. -/
theorem empty_cycle_idempotent_witness :
    detectIsOk recentlyPlayedTrackIsValid 7
      (lastAfterDetect recentlyPlayedTrackIsValid 3 0 [c9play]) [c9play] = true
    ∧ newFoundAfterDetect recentlyPlayedTrackIsValid 7
      (lastAfterDetect recentlyPlayedTrackIsValid 3 0 [c9play]) [c9play] = false
    ∧ lastAfterDetect recentlyPlayedTrackIsValid 7
      (lastAfterDetect recentlyPlayedTrackIsValid 3 0 [c9play]) [c9play]
        = lastAfterDetect recentlyPlayedTrackIsValid 3 0 [c9play] := by
  refine empty_cycle_idempotent recentlyPlayedTrackIsValid 3 7 0 [c9play] (by decide) ?_
  have hv : validDates recentlyPlayedTrackIsValid [c9play] = [100] := by decide
  rw [hv]
  exact List.pairwise_singleton _ _

/-- Counterexample for C6: the default validity predicate accepts a record
whose `playDate` is absent, so "valid iff playDate is present" is false for
the default policy. -/
theorem default_validity_counterexample :
    ¬ (∀ p : Play, recentlyPlayedTrackIsValid p = true ↔ (p.data.playDate).isSome = true) := by
  intro h
  have h2 := (h noDatePlay).mp rfl
  simp [noDatePlay] at h2

/-- C6 (amended): the default record-validity predicate accepts every play
record unconditionally, while the timestamp-lacking YTMusic variant accepts a
record if and only if `meta.newFromSource` is true. -/
theorem validity_predicates_amended :
    (∀ p : Play, recentlyPlayedTrackIsValid p = true)
    ∧ (∀ p : Play, ytmusicRecentlyPlayedTrackIsValid p = true ↔ p.meta.newFromSource = true) :=
  ⟨fun _ => rfl, fun _ => Iff.rfl⟩

/-- Counterexample for C7: two records with matching `(source, id)` pairs but
different titles are claimed to be the same play, yet `playObjDataMatch`
rejects them — an id match alone never makes the test succeed. -/
theorem playObjDataMatch_counterexample :
    ¬ (playObjDataMatch idMatchA idMatchB = true ↔ claimedSamePlay idMatchA idMatchB) := by
  intro h
  have hc : claimedSamePlay idMatchA idMatchB := Or.inl ⟨rfl, rfl, rfl⟩
  have hfalse : playObjDataMatch idMatchA idMatchB = false := by decide
  have := h.mpr hc
  rw [hfalse] at this
  exact Bool.noConfusion this

/-- C7 (amended): `playObjDataMatch a b` succeeds iff the track titles and
albums are equal, the artist lists have equal length, the artists condition
with the source's operator precedence holds (it fails only when not all of
a's artists appear in b's while all of b's appear in a's), and — when the
sources are equal and both upstream ids are present — the ids are also
equal; a matching `(source, id)` pair alone never suffices. -/
theorem playObjDataMatch_characterization (a b : Play) :
    playObjDataMatch a b = true ↔
      (¬ (a.meta.source = b.meta.source ∧ a.meta.sourceId.isSome ∧ b.meta.sourceId.isSome
          ∧ a.meta.sourceId ≠ b.meta.sourceId))
      ∧ a.data.track = b.data.track
      ∧ a.data.album = b.data.album
      ∧ a.data.artists.length = b.data.artists.length
      ∧ ((∀ x ∈ a.data.artists, x ∈ b.data.artists)
        ∨ ¬ (∀ x ∈ b.data.artists, x ∈ a.data.artists)) := by
  unfold playObjDataMatch
  split_ifs with h1 h2 h3 h4 h5
  · exact iff_of_false (by simp) fun hr => hr.1 h1
  · exact iff_of_false (by simp) fun hr => h2 hr.2.1
  · exact iff_of_false (by simp) fun hr => h3 hr.2.2.1
  · exact iff_of_false (by simp) fun hr => h4 hr.2.2.2.1
  · refine iff_of_false (by simp) fun hr => ?_
    rcases hr.2.2.2.2 with hall | hnall
    · exact h5.1 hall
    · exact hnall h5.2
  · refine iff_of_true rfl ⟨h1, not_not.mp h2, not_not.mp h3, not_not.mp h4, ?_⟩
    by_cases hall : ∀ x ∈ a.data.artists, x ∈ b.data.artists
    · exact Or.inl hall
    · right
      intro hballs
      exact h5 ⟨hall, hballs⟩

theorem playsAreSortConsistent_refl (l : List Play) : playsAreSortConsistent l l = true := by
  unfold playsAreSortConsistent
  apply List.any_eq_true.mpr
  exact ⟨0, by simp, by simp⟩

theorem playsAreSortConsistent_added_false (prev pre : List Play) (hne : pre ≠ [])
    (hnew : ∀ p ∈ pre, ¬ playKey p ∈ keyList prev) :
    playsAreSortConsistent prev (pre ++ prev) = false := by
  unfold playsAreSortConsistent
  apply List.any_eq_false.mpr
  intro k hk
  intro hc
  rw [Bool.and_eq_true] at hc
  obtain ⟨h1, h2⟩ := hc
  rw [decide_eq_true_eq] at h1
  have hlen := congrArg List.length h1
  simp only [keyList, List.length_map, List.length_drop, List.length_append] at hlen
  rcases Nat.eq_zero_or_pos k with rfl | hkpos
  · have hz : pre.length = 0 := by omega
    exact hne (List.length_eq_zero.mp hz)
  · obtain ⟨p0, pre', rfl⟩ : ∃ p0 pre', pre = p0 :: pre' := by
      cases pre with
      | nil => exact absurd rfl hne
      | cons a l => exact ⟨a, l, rfl⟩
    obtain ⟨j, rfl⟩ : ∃ j, k = j + 1 := ⟨k - 1, by omega⟩
    have hmem : p0 ∈ (((p0 :: pre') ++ prev).take (j + 1)) := by
      rw [List.cons_append, List.take_succ_cons]
      exact List.mem_cons_self _ _
    have hcont := List.all_eq_true.mp h2 p0 hmem
    have hmemk : playKey p0 ∈ keyList prev := by simpa using hcont
    exact hnew p0 (List.mem_cons_self _ _) hmemk

theorem playsAreBumpedOnly_added_false (prev pre : List Play) (hne : pre ≠ [])
    (hnew : ∀ p ∈ pre, ¬ playKey p ∈ keyList prev) :
    (playsAreBumpedOnly prev (pre ++ prev)).1 = false := by
  unfold playsAreBumpedOnly
  split
  next m hfind =>
    exfalso
    have hp := List.find?_some hfind
    have hmemm := List.mem_of_find?_eq_some hfind
    simp only [List.mem_map, List.mem_range] at hmemm
    obtain ⟨j, hj, rfl⟩ := hmemm
    rw [Bool.and_eq_true] at hp
    obtain ⟨p0, pre', rfl⟩ : ∃ p0 pre', pre = p0 :: pre' := by
      cases pre with
      | nil => exact absurd rfl hne
      | cons a l => exact ⟨a, l, rfl⟩
    have hmem : p0 ∈ (((p0 :: pre') ++ prev).take (j + 1)) := by
      rw [List.cons_append, List.take_succ_cons]
      exact List.mem_cons_self _ _
    have hcont := List.all_eq_true.mp hp.1 p0 hmem
    have hmemk : playKey p0 ∈ keyList prev := by simpa using hcont
    exact hnew p0 (List.mem_cons_self _ _) hmemk
  next => rfl

theorem playsAreAddedOnly_prepend (prev pre : List Play)
    (hnew : ∀ p ∈ pre, ¬ playKey p ∈ keyList prev) :
    playsAreAddedOnly prev (pre ++ prev) = (true, pre) := by
  have hn : (pre ++ prev).length - prev.length = pre.length := by
    simp [List.length_append]
  simp only [playsAreAddedOnly, hn, List.drop_left, List.take_left]
  rw [if_pos ⟨by simp, trivial, hnew⟩]

theorem pairwise_synth_dates (m : Int) (l : List Play) :
    List.Pairwise (· < ·)
      ((l.mapIdx fun i x => synthNewPlay m i x).filterMap fun p => p.data.playDate) := by
  rw [List.mapIdx_eq_enum_map, List.filterMap_map]
  have h2 : ((fun p : Play => p.data.playDate) ∘ Function.uncurry fun i x => synthNewPlay m i x)
      = some ∘ (fun q : ℕ × Play => m + ((q.1 + 1 : ℕ) : Int)) := rfl
  rw [h2, List.filterMap_eq_map]
  have h3 : (fun q : ℕ × Play => m + ((q.1 + 1 : ℕ) : Int))
      = (fun i : ℕ => m + ((i + 1 : ℕ) : Int)) ∘ Prod.fst := rfl
  rw [h3, ← List.map_map, List.enum_map_fst]
  refine List.Pairwise.map _ ?_ (List.pairwise_lt_range l.length)
  intro a b hab
  omega

/-- C1: while polling, `YTMusicSource.getRecentlyPlayed` classifies
`(previous, current)` in the priority order sort-consistent, bumped-only,
added-only, inconsistent: a sort-consistent current emits no new plays (the
other predicates are not consulted), and when none of the three positive
classes applies it emits no new plays, logs the inconsistency warning
together with the human-readable diff, and replaces the stored window with
the current list. -/
theorem ytm_reconciler_classification (prev listPlays : List Play) (now : Int)
    (logDiff : Bool) :
    (playsAreSortConsistent prev (listPlays.take 20) = true →
      (ytmGetRecentlyPlayed ⟨prev, true⟩ listPlays now logDiff).newPlays = [])
    ∧ (playsAreSortConsistent prev (listPlays.take 20) = false →
      (playsAreBumpedOnly prev (listPlays.take 20)).1 = false →
      (playsAreAddedOnly prev (listPlays.take 20)).1 = false →
      (ytmGetRecentlyPlayed ⟨prev, true⟩ listPlays now logDiff).newPlays = []
      ∧ (ytmGetRecentlyPlayed ⟨prev, true⟩ listPlays now logDiff).warns
          = [inconsistentWarnMsg, diffLogMsg prev (listPlays.take 20)]
      ∧ (ytmGetRecentlyPlayed ⟨prev, true⟩ listPlays now logDiff).state.recentlyPlayed
          = listPlays.take 20) := by
  constructor
  · intro h
    simp [ytmGetRecentlyPlayed, h]
  · intro hSC hB hA
    refine ⟨?_, ?_, ?_⟩ <;> simp [ytmGetRecentlyPlayed, hSC, hB, hA]

/-- Witness for C1: an identical window is sort-consistent and emits nothing;
the pair previous `[A, B]`, current `[B, D]` matches no positive class, emits
nothing, warns with the diff and replaces the window. -/
theorem ytm_reconciler_classification_witness :
    (ytmGetRecentlyPlayed ⟨[pA], true⟩ [pA] 7 false).newPlays = []
    ∧ ((ytmGetRecentlyPlayed ⟨[pA, pB], true⟩ [pB, pD] 7 false).newPlays = []
      ∧ (ytmGetRecentlyPlayed ⟨[pA, pB], true⟩ [pB, pD] 7 false).warns
          = [inconsistentWarnMsg, diffLogMsg [pA, pB] ([pB, pD].take 20)]
      ∧ (ytmGetRecentlyPlayed ⟨[pA, pB], true⟩ [pB, pD] 7 false).state.recentlyPlayed
          = [pB, pD].take 20) := by
  exact ⟨(ytm_reconciler_classification [pA] [pA] 7 false).1 (by decide),
    (ytm_reconciler_classification [pA, pB] [pB, pD] 7 false).2
      (by decide) (by decide) (by decide)⟩

/-- C2: while polling, when the current list equals the stored window with
strictly new items prepended, `getRecentlyPlayed` emits exactly the prepended
items in oldest-first order, gives the k-th emitted play the synthesized
`playDate = minute-truncated-now + (k+1)` seconds with `newFromSource = true`,
and the playDates of the emitted batch are strictly increasing. -/
theorem ytm_added_only_emission (prev pre : List Play) (now : Int) (logDiff : Bool)
    (hlen : (pre ++ prev).length ≤ 20)
    (hnew : ∀ p ∈ pre, ¬ playKey p ∈ keyList prev) :
    (ytmGetRecentlyPlayed ⟨prev, true⟩ (pre ++ prev) now logDiff).newPlays
      = pre.reverse.mapIdx (fun i x => synthNewPlay (startOfMinute now) i x)
    ∧ List.Pairwise (· < ·)
        (((ytmGetRecentlyPlayed ⟨prev, true⟩ (pre ++ prev) now logDiff).newPlays).filterMap
          fun p => p.data.playDate) := by
  have htake : (pre ++ prev).take 20 = pre ++ prev := List.take_of_length_le hlen
  have hmain : (ytmGetRecentlyPlayed ⟨prev, true⟩ (pre ++ prev) now logDiff).newPlays
      = pre.reverse.mapIdx (fun i x => synthNewPlay (startOfMinute now) i x) := by
    by_cases hpre : pre = []
    · subst hpre
      have htake2 : List.take 20 prev = prev := List.take_of_length_le (by simpa using hlen)
      simp [ytmGetRecentlyPlayed, htake2, playsAreSortConsistent_refl]
    · have hSC : playsAreSortConsistent prev (pre ++ prev) = false :=
        playsAreSortConsistent_added_false prev pre hpre hnew
      have hB : (playsAreBumpedOnly prev (pre ++ prev)).1 = false :=
        playsAreBumpedOnly_added_false prev pre hpre hnew
      have hA : playsAreAddedOnly prev (pre ++ prev) = (true, pre) :=
        playsAreAddedOnly_prepend prev pre hnew
      simp [ytmGetRecentlyPlayed, htake, hSC, hB, hA]
  refine ⟨hmain, ?_⟩
  rw [hmain]
  exact pairwise_synth_dates (startOfMinute now) pre.reverse

/-- Witness for C2: previous `[C, D]`, current `[A, B, C, D]` emits `[B, A]`
with synthesized dates `minute(125)+1 = 121` and `122`. -/
theorem ytm_added_only_emission_witness :
    (ytmGetRecentlyPlayed ⟨[pC, pD], true⟩ ([pA, pB] ++ [pC, pD]) 125 false).newPlays
      = [pA, pB].reverse.mapIdx (fun i x => synthNewPlay (startOfMinute 125) i x)
    ∧ List.Pairwise (· < ·)
        (((ytmGetRecentlyPlayed ⟨[pC, pD], true⟩ ([pA, pB] ++ [pC, pD]) 125 false).newPlays).filterMap
          fun p => p.data.playDate) :=
  ytm_added_only_emission [pC, pD] [pA, pB] 125 false (by decide) (by decide)

/-- C10: while polling, a sort-consistent fetch makes `getRecentlyPlayed`
return early with an empty result leaving `this.recentlyPlayed` unchanged,
and every other polling-mode outcome replaces `this.recentlyPlayed` with the
current list before returning. -/
theorem ytm_recentlyPlayed_frame (prev listPlays : List Play) (now : Int)
    (logDiff : Bool) :
    (playsAreSortConsistent prev (listPlays.take 20) = true →
      (ytmGetRecentlyPlayed ⟨prev, true⟩ listPlays now logDiff).newPlays = []
      ∧ (ytmGetRecentlyPlayed ⟨prev, true⟩ listPlays now logDiff).state.recentlyPlayed
          = prev)
    ∧ (playsAreSortConsistent prev (listPlays.take 20) = false →
      (ytmGetRecentlyPlayed ⟨prev, true⟩ listPlays now logDiff).state.recentlyPlayed
        = listPlays.take 20) := by
  constructor
  · intro h
    constructor <;> simp [ytmGetRecentlyPlayed, h]
  · intro h
    simp [ytmGetRecentlyPlayed, h]

/-- Witness for C10: an unchanged window is left untouched; a fully different
fetch replaces the stored window. -/
theorem ytm_recentlyPlayed_frame_witness :
    ((ytmGetRecentlyPlayed ⟨[pC], true⟩ [pC] 3 false).newPlays = []
      ∧ (ytmGetRecentlyPlayed ⟨[pC], true⟩ [pC] 3 false).state.recentlyPlayed = [pC])
    ∧ (ytmGetRecentlyPlayed ⟨[pC], true⟩ [pD] 3 false).state.recentlyPlayed
        = [pD].take 20 := by
  exact ⟨(ytm_recentlyPlayed_frame [pC] [pC] 3 false).1 (by decide),
         (ytm_recentlyPlayed_frame [pC] [pD] 3 false).2 (by decide)⟩
